import Mathlib

/-!
Shallow embedding of the local forensic analysis engine of the
`deepfake-detector` repository (`api/core/image_processing.py`,
`api/core/utils.py`, and the `DeepfakeDetector` anomaly scorer), together
with theorems settling the specification claims about it.

Images are modelled as total pixel functions over natural-number
coordinates with explicit height and width; all floating-point
computation of the source is modelled over an arbitrary linear ordered
field `K` where only field and order operations occur, and over `ℝ`
where square roots, exponentials, logarithms or angles appear.  A NaN
produced by the source (0/0 in `np.corrcoef`) is modelled as `none` of
an `Option`, and a raised exception (a numpy broadcast error) as `none`
of the surrounding `Option` result.
-/

/-- A single-channel (grayscale) image: height, width, and a total pixel
function.  Pixels outside the `h × w` grid are only read through
explicit reflected indexing, mirroring `scipy.ndimage`'s default
`mode='reflect'` boundary handling. -/
structure GImg (K : Type) where
  h : ℕ
  w : ℕ
  px : ℕ → ℕ → K

/-- A three-channel (RGB) image, the result of `np.array(image)` on an
image already converted to RGB mode. -/
structure CImg (K : Type) where
  h : ℕ
  w : ℕ
  r : ℕ → ℕ → K
  g : ℕ → ℕ → K
  b : ℕ → ℕ → K

namespace ImageProcessor

variable {K : Type} [LinearOrderedField K]

/-- The pixel grid of a grayscale image as a finite set of coordinates. -/
def grid (img : GImg K) : Finset (ℕ × ℕ) :=
  Finset.range img.h ×ˢ Finset.range img.w

/-- Sum of all pixels of a grayscale image. -/
def gsum (img : GImg K) : K :=
  ∑ p ∈ grid img, img.px p.1 p.2

/-- The array mean `np.mean` over a 2-D array (sum divided by the number of entries;
division by zero on an empty array is `0` in this embedding, standing in
for numpy's NaN — the claims below only use it on nonempty arrays or in
positions where the value is irrelevant). -/
def gmean (img : GImg K) : K :=
  gsum img / ((img.h * img.w : ℕ) : K)

/-- Pointwise image map. -/
def gmap (f : K → K) (img : GImg K) : GImg K :=
  ⟨img.h, img.w, fun i j => f (img.px i j)⟩

/-- The array variance `np.var` over a 2-D array: mean of squared deviations from the mean. -/
def gvar (img : GImg K) : K :=
  gmean (gmap (fun x => (x - gmean img) ^ 2) img)

/-! ### `ImageProcessor._detect_blocking_artifacts`

Source (`api/core/image_processing.py`, lines 199–210):

    h, w = gray_img.shape
    if h < 16 or w < 16:
        return 0.0
    h_diffs = np.abs(gray_img[8::8, :] - gray_img[7::8, :])
    v_diffs = np.abs(gray_img[:, 8::8] - gray_img[:, 7::8])
    artifact_score = (np.mean(h_diffs) + np.mean(v_diffs)) / 255.0
    return min(1.0, artifact_score)

The slice `a::8` on an axis of length `n` has `⌈(n − a)/8⌉` entries, so
the two slices on one axis can have different lengths.  numpy then
broadcasts the subtraction: it succeeds when the two lengths are equal
or one of them is `1` (the length-1 slice being repeated), and raises a
`ValueError` otherwise — modelled here as `none`.  With lengths `l₁`,
`l₂` in the broadcastable cases, the row selected in slice `i` for
output row `k` is entry `k % lᵢ` of that slice. -/

/-- Length of the numpy slice `a::8` on an axis of size `n`. -/
def sliceLen (n a : ℕ) : ℕ := (n - a + 7) / 8

/-- numpy broadcastability of two leading axis lengths. -/
def bcastOk (l₁ l₂ : ℕ) : Prop := l₁ = l₂ ∨ l₁ = 1 ∨ l₂ = 1

instance (l₁ l₂ : ℕ) : Decidable (bcastOk l₁ l₂) := by
  unfold bcastOk; infer_instance

/-- The value `np.mean(np.abs(gray[8::8, :] - gray[7::8, :]))` under broadcasting. -/
def hDiffsMean (g : GImg K) : K :=
  let l₁ := sliceLen g.h 8
  let l₂ := sliceLen g.h 7
  let L := max l₁ l₂
  (∑ k ∈ Finset.range L, ∑ j ∈ Finset.range g.w,
      |g.px (8 + 8 * (k % l₁)) j - g.px (7 + 8 * (k % l₂)) j|) /
    ((L * g.w : ℕ) : K)

/-- The value `np.mean(np.abs(gray[:, 8::8] - gray[:, 7::8]))` under broadcasting. -/
def vDiffsMean (g : GImg K) : K :=
  let l₁ := sliceLen g.w 8
  let l₂ := sliceLen g.w 7
  let L := max l₁ l₂
  (∑ k ∈ Finset.range L, ∑ i ∈ Finset.range g.h,
      |g.px i (8 + 8 * (k % l₁)) - g.px i (7 + 8 * (k % l₂))|) /
    ((L * g.h : ℕ) : K)

/-- The method `ImageProcessor._detect_blocking_artifacts`.  `none` models the
numpy broadcast `ValueError` (raised exactly when, on some axis of
length `n ≥ 16`, the slices `8::8` and `7::8` have different lengths
neither of which is 1 — that is, when `n ≥ 24` and `n % 8 = 0`). -/
def detect_blocking_artifacts (g : GImg K) : Option K :=
  if g.h < 16 ∨ g.w < 16 then some 0
  else if bcastOk (sliceLen g.h 8) (sliceLen g.h 7) ∧
          bcastOk (sliceLen g.w 8) (sliceLen g.w 7) then
    some (min 1 ((hDiffsMean g + vDiffsMean g) / 255))
  else none

/-! ### Claim-side definitions for the blocking-artifact score (C3) -/

/-- Number of boundary indices `8k` with `k ≥ 1` and `8k < n`. -/
def nBounds (n : ℕ) : ℕ := (n - 1) / 8

/-- Total absolute difference across the horizontal 8-pixel boundaries
`8k` vs `8k−1` (row indices), as described by the claim. -/
def boundTotalH (g : GImg K) : K :=
  ∑ k ∈ Finset.range (nBounds g.h), ∑ j ∈ Finset.range g.w,
    |g.px (8 * (k + 1)) j - g.px (8 * (k + 1) - 1) j|

/-- Total absolute difference across the vertical 8-pixel boundaries
`8k` vs `8k−1` (column indices), as described by the claim. -/
def boundTotalV (g : GImg K) : K :=
  ∑ k ∈ Finset.range (nBounds g.w), ∑ i ∈ Finset.range g.h,
    |g.px i (8 * (k + 1)) - g.px i (8 * (k + 1) - 1)|

/-- The blocking-artifact score exactly as claim C3 words it: the mean
absolute difference over the straddling rows/columns of both axes
pooled together, divided by 255 and clipped to at most 1; `0` if either
dimension is below 16. -/
def specBlockingScore (g : GImg K) : K :=
  if g.h < 16 ∨ g.w < 16 then 0
  else
    min 1 ((boundTotalH g + boundTotalV g) /
      ((nBounds g.h * g.w + nBounds g.w * g.h : ℕ) : K) / 255)

/-- The blocking-artifact score as the code actually computes it in the
regime where the slices line up (neither dimension a multiple of 8):
the *sum* of the two per-axis mean absolute boundary differences,
divided by 255 and clipped to at most 1. -/
def amendedBlockingScore (g : GImg K) : K :=
  if g.h < 16 ∨ g.w < 16 then 0
  else
    min 1 ((boundTotalH g / ((nBounds g.h * g.w : ℕ) : K) +
            boundTotalV g / ((nBounds g.w * g.h : ℕ) : K)) / 255)

/-! ### `ImageProcessor._resize_image` (dimension computation)

Source (`api/core/image_processing.py`, lines 50–64).  `image.size` is
`(width, height)`; `int(x)` on a nonnegative float truncates, modelled
by natural-number division. -/

/-- The output `(width, height)` of `_resize_image` with `max_size=512`. -/
def resize_dims (width height : ℕ) : ℕ × ℕ :=
  if max width height > 512 then
    if width > height then (512, height * 512 / width)
    else (width * 512 / height, 512)
  else (width, height)

/-! ### Concrete images used as counterexamples and witnesses -/

/-- A 17×17 grayscale image, zero everywhere except pixel (8,0) = 255.
Both dimensions are in the aligned slicing regime (17 % 8 ≠ 0). -/
def hotPixelImg : GImg ℚ := ⟨17, 17, fun i j => if i = 8 ∧ j = 0 then 255 else 0⟩

/-! ### scipy building blocks: reflected indexing, Sobel, Gaussian,
Laplace and uniform filters

`scipy.ndimage` filters use `mode='reflect'` boundary handling
(half-sample symmetric: `(d c b a | a b c d | d c b a)`).
`sobel(input, axis)` correlates with `[-1, 0, 1]` along `axis` and with
`[1, 2, 1]` along the other axis; `gaussian_filter(sigma=1.0)` uses a
normalized 1-D kernel `exp(-k²/2)` of radius `int(4.0·σ + 0.5) = 4` on
each axis; `laplace` sums the `[1, -2, 1]` correlation over both axes;
`uniform_filter(size=8)` averages the window of offsets `-4 … 3` on
each axis. -/

/-- The `mode='reflect'` index map of `scipy.ndimage` on an axis of
length `n`. -/
def reflect (n : ℕ) (i : ℤ) : ℕ :=
  if n = 0 then 0
  else
    let m := (i % (2 * (n : ℤ))).toNat
    if m < n then m else 2 * n - 1 - m

/-- Pixel read with reflected boundary handling. -/
def gget (img : GImg K) (i j : ℤ) : K :=
  img.px (reflect img.h i) (reflect img.w j)

/-- The filter `scipy.ndimage.sobel(gray, axis=0)`. -/
def sobel0 (g : GImg K) : GImg K :=
  ⟨g.h, g.w, fun i j =>
    (gget g ((i : ℤ) + 1) ((j : ℤ) - 1) + 2 * gget g ((i : ℤ) + 1) (j : ℤ) +
        gget g ((i : ℤ) + 1) ((j : ℤ) + 1)) -
    (gget g ((i : ℤ) - 1) ((j : ℤ) - 1) + 2 * gget g ((i : ℤ) - 1) (j : ℤ) +
        gget g ((i : ℤ) - 1) ((j : ℤ) + 1))⟩

/-- The filter `scipy.ndimage.sobel(gray, axis=1)`. -/
def sobel1 (g : GImg K) : GImg K :=
  ⟨g.h, g.w, fun i j =>
    (gget g ((i : ℤ) - 1) ((j : ℤ) + 1) + 2 * gget g (i : ℤ) ((j : ℤ) + 1) +
        gget g ((i : ℤ) + 1) ((j : ℤ) + 1)) -
    (gget g ((i : ℤ) - 1) ((j : ℤ) - 1) + 2 * gget g (i : ℤ) ((j : ℤ) - 1) +
        gget g ((i : ℤ) + 1) ((j : ℤ) - 1))⟩

/-- The filter `scipy.ndimage.laplace(gray)`. -/
def laplace (g : GImg K) : GImg K :=
  ⟨g.h, g.w, fun i j =>
    (gget g ((i : ℤ) - 1) (j : ℤ) + gget g ((i : ℤ) + 1) (j : ℤ) - 2 * gget g (i : ℤ) (j : ℤ)) +
    (gget g (i : ℤ) ((j : ℤ) - 1) + gget g (i : ℤ) ((j : ℤ) + 1) - 2 * gget g (i : ℤ) (j : ℤ))⟩

/-- The filter `scipy.ndimage.uniform_filter(gray, size=8)`. -/
def uniform_filter8 (g : GImg K) : GImg K :=
  let rowPass : GImg K := ⟨g.h, g.w, fun i j =>
    (∑ k ∈ Finset.range 8, gget g ((i : ℤ) + (k : ℤ) - 4) (j : ℤ)) / 8⟩
  ⟨g.h, g.w, fun i j =>
    (∑ k ∈ Finset.range 8, gget rowPass (i : ℤ) ((j : ℤ) + (k : ℤ) - 4)) / 8⟩

/-- The local-variance field: `uniform_filter(gray², 8) − uniform_filter(gray, 8)²`. -/
def local_var (g : GImg K) : GImg K :=
  ⟨g.h, g.w, fun i j =>
    (uniform_filter8 (gmap (fun x => x * x) g)).px i j - ((uniform_filter8 g).px i j) ^ 2⟩

/-- The method `ImageProcessor._rgb2gray` on a three-channel image: the luminosity
formula `0.2989·R + 0.5870·G + 0.1140·B`. -/
noncomputable def rgb2gray (img : CImg ℝ) : GImg ℝ :=
  ⟨img.h, img.w, fun i j =>
    0.2989 * img.r i j + 0.5870 * img.g i j + 0.1140 * img.b i j⟩

/-- The function `np.arctan2(y, x)`, as the argument of the complex number `x + y·i`
(`arctan2(0, 0) = 0`, matching numpy). -/
noncomputable def atan2 (y x : ℝ) : ℝ := Complex.arg ⟨x, y⟩

/-- The unnormalized Gaussian kernel weight `exp(-k²/2)` (σ = 1). -/
noncomputable def gaussWeight (k : ℤ) : ℝ := Real.exp (-((k : ℝ) ^ 2) / 2)

/-- The normalization constant of the radius-4 Gaussian kernel. -/
noncomputable def gaussNorm : ℝ := ∑ k ∈ Finset.range 9, gaussWeight ((k : ℤ) - 4)

/-- The filter `scipy.ndimage.gaussian_filter(gray, sigma=1.0)`: the normalized
radius-4 kernel applied along each axis with reflected boundaries. -/
noncomputable def gaussian_filter (g : GImg ℝ) : GImg ℝ :=
  let rowPass : GImg ℝ := ⟨g.h, g.w, fun i j =>
    (∑ k ∈ Finset.range 9, gaussWeight ((k : ℤ) - 4) * gget g ((i : ℤ) + (k : ℤ) - 4) (j : ℤ)) /
      gaussNorm⟩
  ⟨g.h, g.w, fun i j =>
    (∑ k ∈ Finset.range 9, gaussWeight ((k : ℤ) - 4) * gget rowPass (i : ℤ) ((j : ℤ) + (k : ℤ) - 4)) /
      gaussNorm⟩

/-- The field `np.sqrt(sobel0² + sobel1²)` of gradient magnitudes. -/
noncomputable def gradient_magnitude (g : GImg ℝ) : GImg ℝ :=
  ⟨g.h, g.w, fun i j => Real.sqrt ((sobel0 g).px i j ^ 2 + (sobel1 g).px i j ^ 2)⟩

open Classical in
/-- The fraction `np.sum(edge_strength > 50.0) / edge_strength.size`. -/
noncomputable def edge_density (g : GImg ℝ) : ℝ :=
  (((grid g).filter fun p => 50 < (gradient_magnitude g).px p.1 p.2).card : ℝ) /
    ((g.h * g.w : ℕ) : ℝ)

/-- The method `ImageProcessor._calculate_edge_coherence`: the norm of the mean
second-harmonic orientation vector of the Sobel gradient field. -/
noncomputable def calculate_edge_coherence (gray : GImg ℝ) : ℝ :=
  let gx := sobel0 gray
  let gy := sobel1 gray
  let angles : GImg ℝ := ⟨gray.h, gray.w, fun i j => atan2 (gy.px i j) (gx.px i j)⟩
  let cos_sum := gmean (gmap (fun a => Real.cos (2 * a)) angles)
  let sin_sum := gmean (gmap (fun a => Real.sin (2 * a)) angles)
  Real.sqrt (cos_sum ^ 2 + sin_sum ^ 2)

open Classical in
/-- The histogram `np.histogram(values, bins=B, range=(0, 255))` followed by the
source's entropy formula with the `1e-7` epsilon: bin `k` spans
`[255k/B, 255(k+1)/B)`, the last bin being closed on the right. -/
noncomputable def histEntropy {I : Type} (B : ℕ) (s : Finset I) (f : I → ℝ) : ℝ :=
  let count : ℕ → ℕ := fun k =>
    (s.filter fun i => 255 * (k : ℝ) / (B : ℝ) ≤ f i ∧
      (if k + 1 = B then f i ≤ 255 else f i < 255 * ((k : ℝ) + 1) / (B : ℝ))).card
  let total : ℝ := (∑ k ∈ Finset.range B, ((count k : ℕ) : ℝ));
  -(∑ k ∈ Finset.range B,
      ((count k : ℝ) / (total + 1e-7)) * Real.log ((count k : ℝ) / (total + 1e-7) + 1e-7))

/-- The red channel as a grayscale image. -/
def channel_r (img : CImg K) : GImg K := ⟨img.h, img.w, img.r⟩

/-- The green channel as a grayscale image. -/
def channel_g (img : CImg K) : GImg K := ⟨img.h, img.w, img.g⟩

/-- The blue channel as a grayscale image. -/
def channel_b (img : CImg K) : GImg K := ⟨img.h, img.w, img.b⟩

/-- Index set of all entries of the `h × w × 3` array. -/
def cgrid (img : CImg K) : Finset ((ℕ × ℕ) × Fin 3) :=
  (Finset.range img.h ×ˢ Finset.range img.w) ×ˢ (Finset.univ : Finset (Fin 3))

/-- The value of an entry of the `h × w × 3` array. -/
def cvals (img : CImg K) : (ℕ × ℕ) × Fin 3 → K := fun p =>
  if p.2 = 0 then img.r p.1.1 p.1.2
  else if p.2 = 1 then img.g p.1.1 p.1.2
  else img.b p.1.1 p.1.2

/-- Sum over all entries of the three-channel array. -/
def csum (img : CImg K) : K := ∑ p ∈ cgrid img, cvals img p

/-- The mean `np.mean` over the full three-channel array. -/
def cmean (img : CImg K) : K := csum img / ((img.h * img.w * 3 : ℕ) : K)

/-- The variance `np.var` over the full three-channel array. -/
def cvar (img : CImg K) : K :=
  (∑ p ∈ cgrid img, (cvals img p - cmean img) ^ 2) / ((img.h * img.w * 3 : ℕ) : K)

/-- Sum of products of deviations from the mean of two equally sized
grayscale images (the building block of `np.corrcoef`). -/
noncomputable def devSum (a b : GImg ℝ) : ℝ :=
  ∑ p ∈ grid a, (a.px p.1 p.2 - gmean a) * (b.px p.1 p.2 - gmean b)

open Classical in
/-- The value `abs(np.corrcoef(x, y)[0, 1])` on two flattened channels:
`none` models the NaN produced when either channel has zero variance
(0/0); otherwise the correlation, clipped into [−1, 1] by numpy, with
the source's final `abs`. -/
noncomputable def corr_abs (a b : GImg ℝ) : Option ℝ :=
  if devSum a a = 0 ∨ devSum b b = 0 then none
  else some |max (-1) (min 1 (devSum a b / Real.sqrt (devSum a a * devSum b b)))|

/-- The condition under which `_detect_blocking_artifacts` does not
raise: an axis below 16, or both axes with broadcastable slice pairs. -/
def blockingOk (h w : ℕ) : Prop :=
  h < 16 ∨ w < 16 ∨
    (bcastOk (sliceLen h 8) (sliceLen h 7) ∧ bcastOk (sliceLen w 8) (sliceLen w 7))

instance (h w : ℕ) : Decidable (blockingOk h w) := by
  unfold blockingOk; infer_instance

/-- A feature vector: the ordered key/value output of
`extract_features`; `none` in a value position models a NaN double. -/
abbrev FeatureVec := List (String × Option ℝ)

/-- The 32 documented feature keys, in output order. -/
def documentedKeys : List String :=
  ["noise_std", "noise_variance", "noise_mean", "high_freq_variance",
   "mean_intensity", "intensity_std", "intensity_variance",
   "r_mean", "r_std", "g_mean", "g_std", "b_mean", "b_std",
   "pixel_entropy", "gradient_mean", "gradient_std",
   "edge_density", "edge_strength_mean", "edge_strength_std", "edge_coherence",
   "texture_variance", "texture_energy",
   "compression_consistency", "artifact_score",
   "channel_0_entropy", "channel_1_entropy", "channel_2_entropy",
   "color_entropy", "color_variance",
   "rg_correlation", "rb_correlation", "gb_correlation"]

/-- The method `ImageProcessor.extract_features` on the decoded (RGB-converted,
already resized) float array: the six feature families merged in source
order.  The computation fails (`none`) exactly when
`_detect_blocking_artifacts` raises its broadcast error. -/
noncomputable def extract_features_arr (img : CImg ℝ) : Option FeatureVec :=
  let gray := rgb2gray img
  let noise : GImg ℝ := ⟨gray.h, gray.w, fun i j => gray.px i j - (gaussian_filter gray).px i j⟩
  let gradMag := gradient_magnitude gray
  let lv := local_var gray
  let e0 := histEntropy 32 (grid (channel_r img)) fun p => img.r p.1 p.2
  let e1 := histEntropy 32 (grid (channel_g img)) fun p => img.g p.1 p.2
  let e2 := histEntropy 32 (grid (channel_b img)) fun p => img.b p.1 p.2
  match detect_blocking_artifacts gray with
  | none => none
  | some artifact => some
    [("noise_std", some (Real.sqrt (gvar noise) / 255)),
     ("noise_variance", some (gvar noise / 255 ^ 2)),
     ("noise_mean", some (|gmean noise| / 255)),
     ("high_freq_variance", some (gvar (laplace gray) / 255 ^ 2)),
     ("mean_intensity", some (cmean img / 255)),
     ("intensity_std", some (Real.sqrt (cvar img) / 255)),
     ("intensity_variance", some (cvar img / 255 ^ 2)),
     ("r_mean", some (gmean (channel_r img) / 255)),
     ("r_std", some (Real.sqrt (gvar (channel_r img)) / 255)),
     ("g_mean", some (gmean (channel_g img) / 255)),
     ("g_std", some (Real.sqrt (gvar (channel_g img)) / 255)),
     ("b_mean", some (gmean (channel_b img) / 255)),
     ("b_std", some (Real.sqrt (gvar (channel_b img)) / 255)),
     ("pixel_entropy", some (histEntropy 50 (cgrid img) (cvals img))),
     ("gradient_mean", some (gmean gradMag / 255)),
     ("gradient_std", some (Real.sqrt (gvar gradMag) / 255)),
     ("edge_density", some (edge_density gray)),
     ("edge_strength_mean", some (gmean gradMag / 255)),
     ("edge_strength_std", some (Real.sqrt (gvar gradMag) / 255)),
     ("edge_coherence", some (calculate_edge_coherence gray)),
     ("texture_variance", some (gmean lv / 255 ^ 2)),
     ("texture_energy", some (gmean gradMag / 255)),
     ("compression_consistency", some (min 1 (1 / (1 + gvar lv / 10000)))),
     ("artifact_score", some artifact),
     ("channel_0_entropy", some e0),
     ("channel_1_entropy", some e1),
     ("channel_2_entropy", some e2),
     ("color_entropy", some ((e0 + e1 + e2) / 3)),
     ("color_variance", some (cvar img / 255 ^ 2)),
     ("rg_correlation", corr_abs (channel_r img) (channel_g img)),
     ("rb_correlation", corr_abs (channel_r img) (channel_b img)),
     ("gb_correlation", corr_abs (channel_g img) (channel_b img))]

/-- The resize step of `extract_features`: images whose longer side
exceeds 512 are resampled to the dimensions of `resize_dims` with PIL's
LANCZOS filter.  The resampling algorithm is PIL library code, not code
of this repository, so it is taken as a parameter; every theorem below
constrains only the resulting image. -/
def resizedImage (resample : CImg ℝ → ℕ → ℕ → CImg ℝ) (img : CImg ℝ) : CImg ℝ :=
  if 512 < max img.w img.h then
    resample img (resize_dims img.w img.h).1 (resize_dims img.w img.h).2
  else img

/-- The entry point `ImageProcessor.extract_features` on a decoded RGB image:
resize, convert to float array, extract all feature families. -/
noncomputable def extract_features (resample : CImg ℝ → ℕ → ℕ → CImg ℝ)
    (img : CImg ℝ) : Option FeatureVec :=
  extract_features_arr (resizedImage resample img)

/-- A placeholder resampler for concrete inputs whose dimensions never
trigger resampling. -/
def idResample : CImg ℝ → ℕ → ℕ → CImg ℝ := fun i _ _ => i

/-- A 24×24 all-zero RGB image (dimensions a multiple of 8, at least
24: the blocking-artifact slices cannot broadcast). -/
noncomputable def zeroRGB24 : CImg ℝ :=
  ⟨24, 24, fun _ _ => 0, fun _ _ => 0, fun _ _ => 0⟩

/-- The uniform 100×100 solid-red image of claim C5: every pixel
(255, 0, 0). -/
noncomputable def redImg : CImg ℝ :=
  ⟨100, 100, fun _ _ => 255, fun _ _ => 0, fun _ _ => 0⟩

/-- A 1×2 RGB image whose channels each take two distinct values. -/
noncomputable def tinyImg : CImg ℝ :=
  ⟨1, 2, fun _ j => if j = 0 then 0 else 2, fun _ j => if j = 0 then 0 else 2,
    fun _ j => if j = 0 then 0 else 2⟩

/-- A 1×1 all-zero RGB image. -/
noncomputable def oneImg : CImg ℝ :=
  ⟨1, 1, fun _ _ => 0, fun _ _ => 0, fun _ _ => 0⟩

end ImageProcessor

/-! ### `get_risk_assessment` (`api/core/utils.py`, lines 47–84) -/

/-- The result record of `get_risk_assessment`. -/
structure RiskAssessment where
  level : String
  color : String
  emoji : String
  description : String
  recommendations : List String
deriving DecidableEq

/-- The HIGH tier content (static, from the source). -/
def highRisk : RiskAssessment :=
  { level := "HIGH"
    color := "red"
    emoji := "🚨"
    description := "Strong indicators of manipulation detected. This image likely contains deepfake characteristics."
    recommendations :=
      ["Exercise extreme caution before trusting this image",
       "Consider additional verification methods",
       "Check the source and context carefully"] }

/-- The MEDIUM tier content (static, from the source). -/
def mediumRisk : RiskAssessment :=
  { level := "MEDIUM"
    color := "orange"
    emoji := "⚠️"
    description := "Some suspicious patterns detected. The image may have been manipulated."
    recommendations :=
      ["Verify the source of the image",
       "Look for additional evidence of authenticity",
       "Consider the context and plausibility"] }

/-- The LOW tier content (static, from the source). -/
def lowRisk : RiskAssessment :=
  { level := "LOW"
    color := "green"
    emoji := "✅"
    description := "The image appears to be authentic with no strong indicators of manipulation."
    recommendations :=
      ["Image appears legitimate based on analysis",
       "Standard verification practices still apply",
       "Consider the source and context as always"] }

open Classical in
/-- The function `get_risk_assessment(confidence_score)`: pure threshold mapping. -/
noncomputable def get_risk_assessment (confidence_score : ℝ) : RiskAssessment :=
  if confidence_score ≥ 0.8 then highRisk
  else if confidence_score ≥ 0.5 then mediumRisk
  else lowRisk


/-! ### `convert_numpy_to_python` (`api/core/utils.py`, lines 19–45)

A Python value reachable by the recursion is modelled by `PyVal`: a
dict with string keys, a list, a tuple, a numpy integer or floating
scalar, a Python int or float, a numpy ndarray (modelled by its list of
elements; `obj.tolist()` followed by the per-element conversion is
modelled in one step, which produces the same result), or any other
atomic value (`other`, carrying an opaque tag).  A float is a finite
rational or one of NaN/+inf/−inf. -/

inductive FloatV where
  | val (q : ℚ)
  | nan
  | inf
  | ninf
deriving DecidableEq

def FloatV.isBad : FloatV → Bool
  | .val _ => false
  | .nan => true
  | .inf => true
  | .ninf => true

def FloatV.squash (v : FloatV) : FloatV :=
  if v.isBad then .val 0 else v

inductive PyVal where
  | dict : List (String × PyVal) → PyVal
  | pylist : List PyVal → PyVal
  | tuple : List PyVal → PyVal
  | npInt : ℤ → PyVal
  | npFloat : FloatV → PyVal
  | pyInt : ℤ → PyVal
  | pyFloat : FloatV → PyVal
  | npArray : List PyVal → PyVal
  | other : String → PyVal

mutual
def convert_numpy_to_python : PyVal → PyVal
  | .dict kvs => .dict (convertKVs kvs)
  | .pylist xs => .pylist (convertList xs)
  | .tuple xs => .tuple (convertList xs)
  | .npInt n => .pyInt n
  | .npFloat v => .pyFloat v.squash
  | .pyInt n => .pyInt n
  | .pyFloat v => .pyFloat v.squash
  | .npArray xs => .pylist (convertList xs)
  | .other s => .other s
def convertList : List PyVal → List PyVal
  | [] => []
  | x :: xs => convert_numpy_to_python x :: convertList xs
def convertKVs : List (String × PyVal) → List (String × PyVal)
  | [] => []
  | (k, v) :: rest => (k, convert_numpy_to_python v) :: convertKVs rest
end

inductive PyShape where
  | keyed : List (String × PyShape) → PyShape
  | seq : List PyShape → PyShape
  | tup : List PyShape → PyShape
  | atom : PyShape

mutual
def PyVal.shape : PyVal → PyShape
  | .dict kvs => .keyed (shapeKVs kvs)
  | .pylist xs => .seq (shapeList xs)
  | .tuple xs => .tup (shapeList xs)
  | .npArray xs => .seq (shapeList xs)
  | .npInt _ => .atom
  | .npFloat _ => .atom
  | .pyInt _ => .atom
  | .pyFloat _ => .atom
  | .other _ => .atom
def shapeList : List PyVal → List PyShape
  | [] => []
  | x :: xs => PyVal.shape x :: shapeList xs
def shapeKVs : List (String × PyVal) → List (String × PyShape)
  | [] => []
  | (k, v) :: rest => (k, PyVal.shape v) :: shapeKVs rest
end

mutual
def PyVal.sanitized : PyVal → Bool
  | .dict kvs => sanitizedKVs kvs
  | .pylist xs => sanitizedList xs
  | .tuple xs => sanitizedList xs
  | .npArray _ => false
  | .npInt _ => false
  | .npFloat _ => false
  | .pyInt _ => true
  | .pyFloat v => !v.isBad
  | .other _ => true
def sanitizedList : List PyVal → Bool
  | [] => true
  | x :: xs => PyVal.sanitized x && sanitizedList xs
def sanitizedKVs : List (String × PyVal) → Bool
  | [] => true
  | (_, v) :: rest => PyVal.sanitized v && sanitizedKVs rest
end


/-! ### The anomaly scorer `DeepfakeDetector` (spec-modelled)

The class `DeepfakeDetector` lives in `api/core/forensics.py`, which is
not present under `src/` — only its unit tests
(`tests/test_deepfake_detector.py`) and its callers
(`api/routers/analyze.py`) are.  The definitions below are therefore
modelled from the spec (§4.3): a fitted per-feature min-max scaler and a
fitted one-class estimator (both abstract data of the constructed
detector, since the spec leaves the algorithm as an implementation
choice), a sigmoid squashing of the raw score into (0,1), the boolean
prediction as `confidence ≥ 0.5`, and per-feature contributions
normalized into [0,1]. -/

/-- Modelled from the spec: the ten features the model was trained on
(spec §4.3, `predict` input contract). -/
def requiredFeatures : List String :=
  ["noise_std", "noise_variance", "mean_intensity", "intensity_std", "edge_density",
   "texture_variance", "compression_consistency", "artifact_score", "color_entropy",
   "color_variance"]

/-- Modelled from the spec: a constructed (fitted) anomaly scorer — the
per-feature min/max of the fitted scaler, the fitted estimator's scoring
function, and the center of the sigmoid squashing.  Construction always
fits the model (spec §3: "created exactly once when the service starts;
read-only thereafter"), so `ModelNotReady` is unreachable through a
value of this type. -/
structure DeepfakeDetector where
  featMin : ℕ → ℝ
  featMax : ℕ → ℝ
  score : List ℝ → ℝ
  scoreCenter : ℝ

/-- The `DetectionResult` record of spec §3. -/
structure DetectionResult where
  prediction : Bool
  confidence : ℝ
  anomaly_score : ℝ
  feature_analysis : List (String × ℝ)

/-- The failure taxonomy of `predict` (spec §7). -/
inductive PredictError where
  | MissingFeature
  | ModelNotReady
deriving DecidableEq

/-- Look up every key of `ks` in `features`; `none` as soon as any key
is absent (no default is substituted). -/
def lookupAll (features : List (String × ℝ)) : List String → Option (List ℝ)
  | [] => some []
  | k :: ks =>
    match features.lookup k with
    | none => none
    | some v =>
      match lookupAll features ks with
      | none => none
      | some vs => some (v :: vs)

/-- Modelled from the spec: `DeepfakeDetector._features_to_array` — the
ten required features in order, failing if any is absent. -/
def featuresToArray (features : List (String × ℝ)) : Option (List ℝ) :=
  lookupAll features requiredFeatures

open Classical in
/-- Modelled from the spec: `DeepfakeDetector.predict` (spec §4.3). -/
noncomputable def DeepfakeDetector.predict (d : DeepfakeDetector)
    (features : List (String × ℝ)) : Except PredictError DetectionResult :=
  match featuresToArray features with
  | none => .error .MissingFeature
  | some xs =>
    let scaled := xs.mapIdx fun i x => (x - d.featMin i) / (d.featMax i - d.featMin i)
    let raw := d.score scaled
    let confidence := 1 / (1 + Real.exp (-(raw - d.scoreCenter)))
    let contrib := (requiredFeatures.zip scaled).map
      fun p => (p.1, min 1 (max 0 (2 * |p.2 - 1 / 2|)))
    .ok { prediction := if confidence ≥ 0.5 then true else false
          confidence := confidence
          anomaly_score := raw
          feature_analysis := contrib }

/-- A detector with a trivial fitted state, used as a witness input. -/
noncomputable def trivialDetector : DeepfakeDetector :=
  ⟨fun _ => 0, fun _ => 1, fun _ => 0, 0⟩

/-- A feature vector holding every required key with value 0. -/
noncomputable def allZeroFeatures : List (String × ℝ) :=
  [("noise_std", 0), ("noise_variance", 0), ("mean_intensity", 0), ("intensity_std", 0),
   ("edge_density", 0), ("texture_variance", 0), ("compression_consistency", 0),
   ("artifact_score", 0), ("color_entropy", 0), ("color_variance", 0)]

/-!
## Theorems
-/

namespace ImageProcessor

variable {K : Type} [LinearOrderedField K]

theorem gsum_nonneg (img : GImg K) (h : ∀ i j, 0 ≤ img.px i j) : 0 ≤ gsum img :=
  Finset.sum_nonneg fun p _ => h p.1 p.2

theorem gmean_nonneg (img : GImg K) (h : ∀ i j, 0 ≤ img.px i j) : 0 ≤ gmean img :=
  div_nonneg (gsum_nonneg img h) (Nat.cast_nonneg _)

theorem gvar_nonneg (img : GImg K) : 0 ≤ gvar img :=
  gmean_nonneg _ fun _ _ => sq_nonneg _

/-- Sum of a constant image. -/
theorem gsum_const (h w : ℕ) (c : K) :
    gsum ⟨h, w, fun _ _ => c⟩ = (h * w : ℕ) * c := by
  simp [gsum, grid, Finset.sum_const, Finset.card_product, nsmul_eq_mul]

/-- Mean of a constant image over a nonempty grid. -/
theorem gmean_const (h w : ℕ) (c : K) (hh : 0 < h) (hw : 0 < w) :
    gmean ⟨h, w, fun _ _ => c⟩ = c := by
  have hn : ((h * w : ℕ) : K) ≠ 0 := by
    have : 0 < h * w := Nat.mul_pos hh hw
    exact_mod_cast this.ne'
  show gsum ⟨h, w, fun _ _ => c⟩ / ((h * w : ℕ) : K) = c
  rw [gsum_const, mul_comm, mul_div_assoc, div_self hn, mul_one]

/-- Variance of a constant image is zero (also over an empty grid, where
all means are `x / 0 = 0`). -/
theorem gvar_const (h w : ℕ) (c : K) : gvar ⟨h, w, fun _ _ => c⟩ = 0 := by
  rcases Nat.eq_zero_or_pos h with h0 | hh
  · simp [gvar, gmean, gmap, gsum_const, h0]
  rcases Nat.eq_zero_or_pos w with w0 | hw
  · simp [gvar, gmean, gmap, gsum_const, w0]
  have hm := gmean_const h w c hh hw
  show gmean (gmap _ _) = 0
  rw [show gmap (fun x => (x - gmean ⟨h, w, fun _ _ => c⟩) ^ 2) ⟨h, w, fun _ _ => c⟩
        = ⟨h, w, fun _ _ => ((c - gmean ⟨h, w, fun _ _ => c⟩) ^ 2 : K)⟩ from rfl,
      hm, sub_self, zero_pow (by norm_num : 2 ≠ 0)]
  exact gmean_const h w 0 hh hw

/-- On an axis of length `n` that is not a multiple of 8, both slices
`8::8` and `7::8` have exactly `nBounds n` entries. -/
theorem sliceLen_of_not_dvd (n : ℕ) (hn : n % 8 ≠ 0) :
    sliceLen n 8 = nBounds n ∧ sliceLen n 7 = nBounds n := by
  unfold sliceLen nBounds
  omega

/-- In the aligned regime (neither dimension a multiple of 8, both at
least 16), `_detect_blocking_artifacts` succeeds and equals the sum of
the two per-axis boundary means, normalized and clipped. -/
theorem detect_blocking_artifacts_aligned (g : GImg K)
    (hh : 16 ≤ g.h) (hw : 16 ≤ g.w)
    (hh8 : g.h % 8 ≠ 0) (hw8 : g.w % 8 ≠ 0) :
    detect_blocking_artifacts g = some (amendedBlockingScore g) := by
  obtain ⟨lh1, lh2⟩ := sliceLen_of_not_dvd g.h hh8
  obtain ⟨lw1, lw2⟩ := sliceLen_of_not_dvd g.w hw8
  have hcond : ¬(g.h < 16 ∨ g.w < 16) := by omega
  have hbc : bcastOk (sliceLen g.h 8) (sliceLen g.h 7) ∧
      bcastOk (sliceLen g.w 8) (sliceLen g.w 7) := by
    constructor <;> [rw [lh1, lh2]; rw [lw1, lw2]] <;> exact Or.inl rfl
  rw [detect_blocking_artifacts, if_neg hcond, if_pos hbc,
      amendedBlockingScore, if_neg hcond]
  have hH : hDiffsMean g = boundTotalH g / ((nBounds g.h * g.w : ℕ) : K) := by
    unfold hDiffsMean boundTotalH
    simp only [lh1, lh2, max_self]
    congr 1
    refine Finset.sum_congr rfl fun k hk => Finset.sum_congr rfl fun j _ => ?_
    have hk' : k < nBounds g.h := Finset.mem_range.mp hk
    rw [Nat.mod_eq_of_lt hk', show 8 + 8 * k = 8 * (k + 1) from by omega,
        show 7 + 8 * k = 8 * (k + 1) - 1 from by omega]
  have hV : vDiffsMean g = boundTotalV g / ((nBounds g.w * g.h : ℕ) : K) := by
    unfold vDiffsMean boundTotalV
    simp only [lw1, lw2, max_self]
    congr 1
    refine Finset.sum_congr rfl fun k hk => Finset.sum_congr rfl fun i _ => ?_
    have hk' : k < nBounds g.w := Finset.mem_range.mp hk
    rw [Nat.mod_eq_of_lt hk', show 8 + 8 * k = 8 * (k + 1) from by omega,
        show 7 + 8 * k = 8 * (k + 1) - 1 from by omega]
  rw [hH, hV]

/-- The method `_detect_blocking_artifacts` returns exactly `0` when either
dimension is below 16. -/
theorem detect_blocking_artifacts_small (g : GImg K)
    (h : g.h < 16 ∨ g.w < 16) : detect_blocking_artifacts g = some 0 := by
  rw [detect_blocking_artifacts, if_pos h]


/-- C3 counterexample: on a 17×17 image with a single bright pixel at
(8,0), the code computes (mean of row-boundary diffs + mean of
column-boundary diffs)/255 = 1/34, while the claim-described pooled mean
over both axes gives 1/68; the claim is false at this input. -/
theorem blocking_score_counterexample :
    detect_blocking_artifacts hotPixelImg ≠ some (specBlockingScore hotPixelImg) := by
  have h1 : hDiffsMean hotPixelImg = 15/2 := by
    simp only [hDiffsMean, hotPixelImg, sliceLen]
    norm_num [Finset.sum_range_succ]
  have h2 : vDiffsMean hotPixelImg = 0 := by
    simp only [vDiffsMean, hotPixelImg, sliceLen]
    norm_num [Finset.sum_range_succ]
  have h3 : boundTotalH hotPixelImg = 255 := by
    simp only [boundTotalH, hotPixelImg, nBounds]
    norm_num [Finset.sum_range_succ]
  have h4 : boundTotalV hotPixelImg = 0 := by
    simp only [boundTotalV, hotPixelImg, nBounds]
    norm_num [Finset.sum_range_succ]
  rw [detect_blocking_artifacts, if_neg (by decide), if_pos (by decide), h1, h2,
      specBlockingScore, if_neg (by decide), h3, h4]
  norm_num [nBounds, hotPixelImg]

/-- C3 (amended): for a grayscale image with either dimension below 16,
or with both dimensions at least 16 and neither a multiple of 8, the
blocking-artifact score is the *sum* of the two per-axis mean absolute
differences across the 8k/8k−1 boundaries, divided by 255 and clipped to
at most 1 (and exactly 0 in the small case); for a dimension ≥ 24 that
is a multiple of 8 the computation instead fails (`none`), shown
separately by the C1 counterexample.  The claim-described pooled mean is
not what the code computes (see `blocking_score_counterexample`). -/
theorem blocking_score_amended (g : GImg K)
    (hregime : (g.h < 16 ∨ g.w < 16) ∨ (g.h % 8 ≠ 0 ∧ g.w % 8 ≠ 0)) :
    detect_blocking_artifacts g = some (amendedBlockingScore g) := by
  rcases hregime with hsmall | ⟨hh8, hw8⟩
  · rw [detect_blocking_artifacts_small g hsmall, amendedBlockingScore, if_pos hsmall]
  rcases Nat.lt_or_ge g.h 16 with hh | hh
  · rw [detect_blocking_artifacts_small g (Or.inl hh), amendedBlockingScore,
        if_pos (Or.inl hh)]
  rcases Nat.lt_or_ge g.w 16 with hw | hw
  · rw [detect_blocking_artifacts_small g (Or.inr hw), amendedBlockingScore,
        if_pos (Or.inr hw)]
  exact detect_blocking_artifacts_aligned g hh hw hh8 hw8

/-- Witness for `blocking_score_amended` at the concrete 17×17 image. -/
theorem blocking_score_amended_witness :
    detect_blocking_artifacts hotPixelImg = some (amendedBlockingScore hotPixelImg) :=
  blocking_score_amended hotPixelImg (Or.inr ⟨by decide, by decide⟩)

/-- C4: the `_resize_image` dimension computation: images with both
sides at most 512 are returned unchanged (no upsampling); for a longer
side above 512 the output longer side is exactly 512 and the shorter
output side is the exact aspect-preserving rescale of the corresponding
input side rounded down, hence within one pixel of it. -/
theorem resize_dims_spec (w h : ℕ) :
    (max w h ≤ 512 → resize_dims w h = (w, h)) ∧
    (512 < max w h →
      max (resize_dims w h).1 (resize_dims w h).2 = 512 ∧
      (h < w → (resize_dims w h).1 = 512 ∧
        ((resize_dims w h).2 : ℚ) ≤ (h * 512 : ℕ) / (w : ℚ) ∧
        ((h * 512 : ℕ) : ℚ) / (w : ℚ) < (resize_dims w h).2 + 1) ∧
      (w ≤ h → (resize_dims w h).2 = 512 ∧
        ((resize_dims w h).1 : ℚ) ≤ (w * 512 : ℕ) / (h : ℚ) ∧
        ((w * 512 : ℕ) : ℚ) / (h : ℚ) < (resize_dims w h).1 + 1)) := by
  constructor
  · intro hle
    rw [resize_dims, if_neg (by omega)]
  · intro hgt
    rcases Nat.lt_or_ge h w with hwh | hwh
    · have hw0 : 0 < w := by omega
      have hd : resize_dims w h = (512, h * 512 / w) := by
        rw [resize_dims, if_pos (by omega), if_pos (by omega)]
      refine ⟨?_, fun _ => ⟨by rw [hd], ?_, ?_⟩, fun hc => absurd hc (by omega)⟩
      · rw [hd]
        have : h * 512 / w ≤ 512 := by
          calc h * 512 / w ≤ w * 512 / w := by
                exact Nat.div_le_div_right (Nat.mul_le_mul_right _ (by omega))
            _ = 512 := by rw [Nat.mul_comm]; exact Nat.mul_div_cancel _ hw0
        simp [this]
      · rw [hd]
        exact_mod_cast Nat.cast_div_le
      · rw [hd]
        have h1 : h * 512 < w * (h * 512 / w + 1) := Nat.lt_mul_div_succ _ hw0
        have h2 : ((h * 512 : ℕ) : ℚ) < (w : ℚ) * ((h * 512 / w : ℕ) + 1) := by
          exact_mod_cast h1
        rw [div_lt_iff₀ (by exact_mod_cast hw0)]
        linarith
    · have hh0 : 0 < h := by omega
      have hd : resize_dims w h = (w * 512 / h, 512) := by
        rw [resize_dims, if_pos (by omega), if_neg (by omega)]
      refine ⟨?_, fun hc => absurd hc (by omega), fun _ => ⟨by rw [hd], ?_, ?_⟩⟩
      · rw [hd]
        have : w * 512 / h ≤ 512 := by
          calc w * 512 / h ≤ h * 512 / h := by
                exact Nat.div_le_div_right (Nat.mul_le_mul_right _ (by omega))
            _ = 512 := by rw [Nat.mul_comm]; exact Nat.mul_div_cancel _ hh0
        simp [this]
      · rw [hd]
        exact_mod_cast Nat.cast_div_le
      · rw [hd]
        have h1 : w * 512 < h * (w * 512 / h + 1) := Nat.lt_mul_div_succ _ hh0
        have h2 : ((w * 512 : ℕ) : ℚ) < (h : ℚ) * ((w * 512 / h : ℕ) + 1) := by
          exact_mod_cast h1
        rw [div_lt_iff₀ (by exact_mod_cast hh0)]
        linarith

/-- Witness for `resize_dims_spec`: a 100×100 image is unchanged, and a
1000×500 image becomes 512×256. -/
theorem resize_dims_spec_witness :
    resize_dims 100 100 = (100, 100) ∧
    max (resize_dims 1000 500).1 (resize_dims 1000 500).2 = 512 ∧
    (resize_dims 1000 500).1 = 512 ∧
    ((resize_dims 1000 500).2 : ℚ) ≤ (500 * 512 : ℕ) / (1000 : ℚ) :=
  ⟨(resize_dims_spec 100 100).1 (by norm_num),
   ((resize_dims_spec 1000 500).2 (by norm_num)).1,
   (((resize_dims_spec 1000 500).2 (by norm_num)).2.1 (by norm_num)).1,
   (((resize_dims_spec 1000 500).2 (by norm_num)).2.1 (by norm_num)).2.1⟩

end ImageProcessor

/-- C8: the risk classifier is a pure threshold mapping: confidence
≥ 0.8 yields the fixed HIGH tier record, 0.5 ≤ confidence < 0.8 the
fixed MEDIUM tier record, and anything below 0.5 the fixed LOW tier
record; it is total (never fails). -/
theorem get_risk_assessment_spec (c : ℝ) :
    (0.8 ≤ c → get_risk_assessment c = highRisk) ∧
    (0.5 ≤ c → c < 0.8 → get_risk_assessment c = mediumRisk) ∧
    (c < 0.5 → get_risk_assessment c = lowRisk) := by
  refine ⟨fun h1 => ?_, fun h2 h3 => ?_, fun h4 => ?_⟩
  · rw [get_risk_assessment, if_pos h1]
  · rw [get_risk_assessment, if_neg (by simpa using not_le.mpr h3), if_pos h2]
  · rw [get_risk_assessment, if_neg (by simpa using not_le.mpr (by linarith : c < 0.8)),
        if_neg (by simpa using not_le.mpr h4)]

/-- Witness for `get_risk_assessment_spec` at 0.9, 0.6 and 0.1. -/
theorem get_risk_assessment_spec_witness :
    get_risk_assessment 0.9 = highRisk ∧ get_risk_assessment 0.6 = mediumRisk ∧
    get_risk_assessment 0.1 = lowRisk :=
  ⟨(get_risk_assessment_spec 0.9).1 (by norm_num),
   (get_risk_assessment_spec 0.6).2.1 (by norm_num) (by norm_num),
   (get_risk_assessment_spec 0.1).2.2 (by norm_num)⟩

/-! ### Theorems about `convert_numpy_to_python` (C9) -/

theorem PyVal.inductionOn {P : PyVal → Prop}
    (hdict : ∀ kvs, (∀ kv ∈ kvs, P (Prod.snd kv)) → P (.dict kvs))
    (hlist : ∀ xs, (∀ x ∈ xs, P x) → P (.pylist xs))
    (htuple : ∀ xs, (∀ x ∈ xs, P x) → P (.tuple xs))
    (harray : ∀ xs, (∀ x ∈ xs, P x) → P (.npArray xs))
    (hnpInt : ∀ n, P (.npInt n)) (hnpFloat : ∀ v, P (.npFloat v))
    (hpyInt : ∀ n, P (.pyInt n)) (hpyFloat : ∀ v, P (.pyFloat v))
    (hother : ∀ s, P (.other s)) : ∀ v, P v := by
  have key : ∀ n v, sizeOf v ≤ n → P v := by
    intro n
    induction n with
    | zero =>
      intro v hv
      cases v <;> simp at hv
    | succ n ih =>
      intro v hv
      cases v with
      | dict kvs =>
        refine hdict kvs fun kv hkv => ih _ ?_
        have h1 := List.sizeOf_lt_of_mem hkv
        obtain ⟨k, v2⟩ := kv
        simp only [PyVal.dict.sizeOf_spec] at hv
        simp only [Prod.mk.sizeOf_spec] at h1
        simp only
        omega
      | pylist xs =>
        refine hlist xs fun x hx => ih _ ?_
        have h1 := List.sizeOf_lt_of_mem hx
        simp only [PyVal.pylist.sizeOf_spec] at hv
        omega
      | tuple xs =>
        refine htuple xs fun x hx => ih _ ?_
        have h1 := List.sizeOf_lt_of_mem hx
        simp only [PyVal.tuple.sizeOf_spec] at hv
        omega
      | npArray xs =>
        refine harray xs fun x hx => ih _ ?_
        have h1 := List.sizeOf_lt_of_mem hx
        simp only [PyVal.npArray.sizeOf_spec] at hv
        omega
      | npInt n => exact hnpInt n
      | npFloat v => exact hnpFloat v
      | pyInt n => exact hpyInt n
      | pyFloat v => exact hpyFloat v
      | other s => exact hother s
  exact fun v => key (sizeOf v) v le_rfl

theorem convertList_eq_map (xs : List PyVal) :
    convertList xs = xs.map convert_numpy_to_python := by
  induction xs with
  | nil => rfl
  | cons x xs ih => simp [convertList, ih]

theorem convertKVs_eq_map (kvs : List (String × PyVal)) :
    convertKVs kvs = kvs.map fun p => (p.1, convert_numpy_to_python p.2) := by
  induction kvs with
  | nil => rfl
  | cons p rest ih => obtain ⟨k, v⟩ := p; simp [convertKVs, ih]

theorem shapeList_eq_map (xs : List PyVal) :
    shapeList xs = xs.map PyVal.shape := by
  induction xs with
  | nil => rfl
  | cons x xs ih => simp [shapeList, ih]

theorem shapeKVs_eq_map (kvs : List (String × PyVal)) :
    shapeKVs kvs = kvs.map fun p => (p.1, PyVal.shape p.2) := by
  induction kvs with
  | nil => rfl
  | cons p rest ih => obtain ⟨k, v⟩ := p; simp [shapeKVs, ih]

theorem sanitizedList_eq_all (xs : List PyVal) :
    sanitizedList xs = xs.all PyVal.sanitized := by
  induction xs with
  | nil => rfl
  | cons x xs ih => simp [sanitizedList, ih]

theorem sanitizedKVs_eq_all (kvs : List (String × PyVal)) :
    sanitizedKVs kvs = kvs.all fun p => PyVal.sanitized p.2 := by
  induction kvs with
  | nil => rfl
  | cons p rest ih => obtain ⟨k, v⟩ := p; simp [sanitizedKVs, ih]

theorem convert_spec_main :
    ∀ v : PyVal,
      PyVal.shape (convert_numpy_to_python v) = PyVal.shape v ∧
      PyVal.sanitized (convert_numpy_to_python v) = true ∧
      (PyVal.sanitized v = true → convert_numpy_to_python v = v) := by
  intro v
  induction v using PyVal.inductionOn with
  | hdict kvs ih =>
    refine ⟨?_, ?_, ?_⟩
    · simp only [convert_numpy_to_python, PyVal.shape, shapeKVs_eq_map, convertKVs_eq_map,
        List.map_map]
      congr 1
      refine List.map_congr_left fun p hp => ?_
      simp [(ih p hp).1]
    · simp only [convert_numpy_to_python, PyVal.sanitized, sanitizedKVs_eq_all, convertKVs_eq_map,
        List.all_eq_true]
      intro p hp
      simp only [List.mem_map] at hp
      obtain ⟨q, hq, rfl⟩ := hp
      exact (ih q hq).2.1
    · intro hcl
      simp only [PyVal.sanitized, sanitizedKVs_eq_all, List.all_eq_true] at hcl
      simp only [convert_numpy_to_python, convertKVs_eq_map]
      congr 1
      conv_rhs => rw [show kvs = kvs.map id from (List.map_id kvs).symm]
      refine List.map_congr_left fun p hp => ?_
      rw [(ih p hp).2.2 (by simpa using hcl p hp)]
      rfl
  | hlist xs ih =>
    refine ⟨?_, ?_, ?_⟩
    · simp only [convert_numpy_to_python, PyVal.shape, shapeList_eq_map, convertList_eq_map,
        List.map_map]
      congr 1
      exact List.map_congr_left fun x hx => (ih x hx).1
    · simp only [convert_numpy_to_python, PyVal.sanitized, sanitizedList_eq_all, convertList_eq_map,
        List.all_eq_true]
      intro x hx
      simp only [List.mem_map] at hx
      obtain ⟨y, hy, rfl⟩ := hx
      exact (ih y hy).2.1
    · intro hcl
      simp only [PyVal.sanitized, sanitizedList_eq_all, List.all_eq_true] at hcl
      simp only [convert_numpy_to_python, convertList_eq_map]
      congr 1
      conv_rhs => rw [show xs = xs.map id from (List.map_id xs).symm]
      exact List.map_congr_left fun x hx => (ih x hx).2.2 (by simpa using hcl x hx)
  | htuple xs ih =>
    refine ⟨?_, ?_, ?_⟩
    · simp only [convert_numpy_to_python, PyVal.shape, shapeList_eq_map, convertList_eq_map,
        List.map_map]
      congr 1
      exact List.map_congr_left fun x hx => (ih x hx).1
    · simp only [convert_numpy_to_python, PyVal.sanitized, sanitizedList_eq_all, convertList_eq_map,
        List.all_eq_true]
      intro x hx
      simp only [List.mem_map] at hx
      obtain ⟨y, hy, rfl⟩ := hx
      exact (ih y hy).2.1
    · intro hcl
      simp only [PyVal.sanitized, sanitizedList_eq_all, List.all_eq_true] at hcl
      simp only [convert_numpy_to_python, convertList_eq_map]
      congr 1
      conv_rhs => rw [show xs = xs.map id from (List.map_id xs).symm]
      exact List.map_congr_left fun x hx => (ih x hx).2.2 (by simpa using hcl x hx)
  | harray xs ih =>
    refine ⟨?_, ?_, ?_⟩
    · simp only [convert_numpy_to_python, PyVal.shape, shapeList_eq_map, convertList_eq_map,
        List.map_map]
      congr 1
      exact List.map_congr_left fun x hx => (ih x hx).1
    · simp only [convert_numpy_to_python, PyVal.sanitized, sanitizedList_eq_all, convertList_eq_map,
        List.all_eq_true]
      intro x hx
      simp only [List.mem_map] at hx
      obtain ⟨y, hy, rfl⟩ := hx
      exact (ih y hy).2.1
    · intro hcl
      exact absurd hcl (by simp [PyVal.sanitized])
  | hnpInt n => exact ⟨rfl, rfl, fun h => by simp [PyVal.sanitized] at h⟩
  | hnpFloat v => exact ⟨rfl, by simp [convert_numpy_to_python, PyVal.sanitized, FloatV.squash]; cases v <;> simp [FloatV.isBad], fun h => by simp [PyVal.sanitized] at h⟩
  | hpyInt n => exact ⟨rfl, rfl, fun _ => rfl⟩
  | hpyFloat v =>
    refine ⟨rfl, ?_, ?_⟩
    · simp only [convert_numpy_to_python, PyVal.sanitized, FloatV.squash]
      cases v <;> simp [FloatV.isBad]
    · intro h
      simp only [PyVal.sanitized] at h
      cases v with
      | val q => simp [convert_numpy_to_python, FloatV.squash, FloatV.isBad]
      | nan => simp [FloatV.isBad] at h
      | inf => simp [FloatV.isBad] at h
      | ninf => simp [FloatV.isBad] at h
  | hother s => exact ⟨rfl, rfl, fun _ => rfl⟩

/-- C9: `convert_numpy_to_python` preserves the shape (and dict keys)
of every nested structure; its output contains no numpy scalar or array
and no NaN/infinite float; values that are already plain finite Python
data are returned unchanged; a finite numpy scalar becomes the
corresponding Python int/float; a NaN or infinite float (numpy or
Python) becomes `0.0`. -/
theorem convert_numpy_to_python_spec :
    (∀ v : PyVal,
      PyVal.shape (convert_numpy_to_python v) = PyVal.shape v ∧
      PyVal.sanitized (convert_numpy_to_python v) = true ∧
      (PyVal.sanitized v = true → convert_numpy_to_python v = v)) ∧
    (∀ q : ℚ, convert_numpy_to_python (.npFloat (.val q)) = .pyFloat (.val q)) ∧
    (∀ n : ℤ, convert_numpy_to_python (.npInt n) = .pyInt n) ∧
    (∀ f : FloatV, f.isBad = true →
      convert_numpy_to_python (.npFloat f) = .pyFloat (.val 0) ∧
      convert_numpy_to_python (.pyFloat f) = .pyFloat (.val 0)) := by
  refine ⟨convert_spec_main, fun q => rfl, fun n => rfl, fun f hf => ?_⟩
  constructor <;>
    simp [convert_numpy_to_python, FloatV.squash, hf]

/-- Witness for `convert_numpy_to_python_spec`: a clean dict is
unchanged, and a numpy NaN becomes `0.0`. -/
theorem convert_numpy_to_python_spec_witness :
    convert_numpy_to_python (.dict [("a", .pyFloat (.val 1)), ("b", .other "s")]) =
      .dict [("a", .pyFloat (.val 1)), ("b", .other "s")] ∧
    convert_numpy_to_python (.npFloat .nan) = .pyFloat (.val 0) :=
  ⟨(convert_numpy_to_python_spec.1 _).2.2 (by decide),
   (convert_numpy_to_python_spec.2.2.2 .nan (by decide)).1⟩

/-! ### Theorems about the anomaly scorer (C2, C6) -/

theorem sigmoid_mem_unit (t : ℝ) : 0 ≤ 1 / (1 + Real.exp t) ∧ 1 / (1 + Real.exp t) ≤ 1 := by
  have h := Real.exp_pos t
  constructor
  · positivity
  · rw [div_le_one (by linarith)]
    linarith

theorem if_half_le_iff (c : ℝ) : ((if c ≥ 0.5 then true else false) = true ↔ 0.5 ≤ c) := by
  rcases le_or_lt 0.5 c with h | h
  · rw [if_pos (by exact h)]
    simp [h]
  · rw [if_neg (by exact not_le.mpr h)]
    simp [not_le.mpr h]

/-- C2: whenever `predict` succeeds, the confidence of the returned
`DetectionResult` lies in [0,1] and the boolean prediction is true
exactly when the confidence is at least 0.5.  (The scorer itself is
modelled from the spec, its source file being absent from `src/`.) -/
theorem predict_confidence_spec (d : DeepfakeDetector) (features : List (String × ℝ))
    (r : DetectionResult) (h : d.predict features = .ok r) :
    (0 ≤ r.confidence ∧ r.confidence ≤ 1) ∧ (r.prediction = true ↔ 0.5 ≤ r.confidence) := by
  rw [DeepfakeDetector.predict] at h
  rcases hfa : featuresToArray features with _ | xs
  · rw [hfa] at h; exact absurd h (by simp)
  rw [hfa] at h
  simp only [Except.ok.injEq] at h
  subst h
  exact ⟨sigmoid_mem_unit _, if_half_le_iff _⟩

/-- Witness for `predict_confidence_spec` on a concrete detector and a
complete feature vector. -/
theorem predict_confidence_spec_witness :
    ∃ r, trivialDetector.predict allZeroFeatures = .ok r ∧
      ((0 ≤ r.confidence ∧ r.confidence ≤ 1) ∧ (r.prediction = true ↔ 0.5 ≤ r.confidence)) :=
  ⟨_, rfl, predict_confidence_spec trivialDetector allZeroFeatures _ rfl⟩

theorem lookupAll_none (f : List (String × ℝ)) (ks : List String)
    (h : ∃ k ∈ ks, f.lookup k = none) : lookupAll f ks = none := by
  induction ks with
  | nil => simp at h
  | cons k ks ih =>
    obtain ⟨k', hk', hnone⟩ := h
    rcases List.mem_cons.mp hk' with rfl | hmem
    · rw [lookupAll, hnone]
    · rcases hf : f.lookup k with _ | v
      · rw [lookupAll, hf]
      · rw [lookupAll, hf, ih ⟨k', hmem, hnone⟩]

/-- C6: `predict` on a feature vector missing any of the ten required
keys fails with `MissingFeature` — it never substitutes a default and
never returns a result.  (The scorer is modelled from the spec, its
source file being absent from `src/`.) -/
theorem predict_missing_feature (d : DeepfakeDetector) (features : List (String × ℝ))
    (h : ∃ k ∈ requiredFeatures, features.lookup k = none) :
    d.predict features = .error .MissingFeature := by
  rw [DeepfakeDetector.predict, featuresToArray, lookupAll_none _ _ h]

/-- Witness for `predict_missing_feature`: the empty feature vector. -/
theorem predict_missing_feature_witness :
    trivialDetector.predict [] = .error .MissingFeature :=
  predict_missing_feature trivialDetector []
    ⟨"noise_std", by simp [requiredFeatures], rfl⟩

namespace ImageProcessor

/-! ### Theorems about `_calculate_edge_coherence` (C10) -/

theorem sum_cos_sq_add_sum_sin_sq_le {I : Type} (s : Finset I) (θ : I → ℝ) :
    (∑ i ∈ s, Real.cos (θ i)) ^ 2 + (∑ i ∈ s, Real.sin (θ i)) ^ 2 ≤ (s.card : ℝ) ^ 2 := by
  have h1 : Complex.abs (∑ i ∈ s, Complex.exp (θ i * Complex.I)) ≤ (s.card : ℝ) := by
    calc Complex.abs (∑ i ∈ s, Complex.exp (θ i * Complex.I))
        ≤ ∑ i ∈ s, Complex.abs (Complex.exp (θ i * Complex.I)) := Complex.abs.sum_le _ _
      _ = (s.card : ℝ) := by simp [Complex.abs_exp_ofReal_mul_I]
  have hre : (∑ i ∈ s, Complex.exp (θ i * Complex.I)).re = ∑ i ∈ s, Real.cos (θ i) := by
    rw [Complex.re_sum]
    exact Finset.sum_congr rfl fun i _ => Complex.exp_ofReal_mul_I_re (θ i)
  have him : (∑ i ∈ s, Complex.exp (θ i * Complex.I)).im = ∑ i ∈ s, Real.sin (θ i) := by
    rw [Complex.im_sum]
    exact Finset.sum_congr rfl fun i _ => Complex.exp_ofReal_mul_I_im (θ i)
  have h2 : (∑ i ∈ s, Real.cos (θ i)) ^ 2 + (∑ i ∈ s, Real.sin (θ i)) ^ 2
      = Complex.abs (∑ i ∈ s, Complex.exp (θ i * Complex.I)) ^ 2 := by
    rw [Complex.sq_abs, Complex.normSq_apply, hre, him]
    ring
  rw [h2]
  exact pow_le_pow_left₀ (AbsoluteValue.nonneg _ _) h1 2

theorem gmean_cos_sin_sq_le_one (h w : ℕ) (f : ℕ → ℕ → ℝ) :
    gmean (gmap (fun a => Real.cos (2 * a)) ⟨h, w, f⟩) ^ 2 +
    gmean (gmap (fun a => Real.sin (2 * a)) ⟨h, w, f⟩) ^ 2 ≤ 1 := by
  have e1 : gmean (gmap (fun a => Real.cos (2 * a)) ⟨h, w, f⟩)
      = (∑ p ∈ Finset.range h ×ˢ Finset.range w, Real.cos (2 * f p.1 p.2)) /
        ((h * w : ℕ) : ℝ) := rfl
  have e2 : gmean (gmap (fun a => Real.sin (2 * a)) ⟨h, w, f⟩)
      = (∑ p ∈ Finset.range h ×ˢ Finset.range w, Real.sin (2 * f p.1 p.2)) /
        ((h * w : ℕ) : ℝ) := rfl
  rw [e1, e2]
  rcases Nat.eq_zero_or_pos (h * w) with h0 | hpos
  · rw [h0]
    norm_num
  have hn : (0 : ℝ) < ((h * w : ℕ) : ℝ) := by exact_mod_cast hpos
  have hb := sum_cos_sq_add_sum_sin_sq_le
    (Finset.range h ×ˢ Finset.range w) (fun p => 2 * f p.1 p.2)
  rw [Finset.card_product, Finset.card_range, Finset.card_range] at hb
  rw [div_pow, div_pow, div_add_div_same, div_le_one (by positivity)]
  exact_mod_cast hb

/-- C10: the edge-coherence score — the Euclidean norm of the
per-image means of cos(2θ) and sin(2θ) over the Sobel gradient
orientations — always lies in [0, 1], because the mean of unit vectors
lies in the closed unit disk; hence the `edge_coherence` feature is
always in [0, 1]. -/
theorem edge_coherence_mem_unit (gray : GImg ℝ) :
    0 ≤ calculate_edge_coherence gray ∧ calculate_edge_coherence gray ≤ 1 := by
  refine ⟨Real.sqrt_nonneg _, ?_⟩
  rw [calculate_edge_coherence]
  exact Real.sqrt_le_one.mpr
    (gmean_cos_sin_sq_le_one gray.h gray.w
      (fun i j => atan2 ((sobel1 gray).px i j) ((sobel0 gray).px i j)))

end ImageProcessor

namespace ImageProcessor

/-! ### Theorems about `extract_features` (C1, C7) -/

variable {K : Type} [LinearOrderedField K]

theorem hDiffsMean_nonneg (g : GImg K) : 0 ≤ hDiffsMean g := by
  unfold hDiffsMean
  exact div_nonneg
    (Finset.sum_nonneg fun k _ => Finset.sum_nonneg fun j _ => abs_nonneg _)
    (Nat.cast_nonneg _)

theorem vDiffsMean_nonneg (g : GImg K) : 0 ≤ vDiffsMean g := by
  unfold vDiffsMean
  exact div_nonneg
    (Finset.sum_nonneg fun k _ => Finset.sum_nonneg fun i _ => abs_nonneg _)
    (Nat.cast_nonneg _)

/-- Whenever `_detect_blocking_artifacts` returns, its value is in [0,1]. -/
theorem detect_blocking_artifacts_mem_unit (g : GImg K) (a : K)
    (ha : detect_blocking_artifacts g = some a) : 0 ≤ a ∧ a ≤ 1 := by
  rw [detect_blocking_artifacts] at ha
  split_ifs at ha with h1 h2
  · obtain rfl := Option.some.inj ha
    norm_num
  · obtain rfl := Option.some.inj ha
    constructor
    · exact le_min (by norm_num)
        (div_nonneg (add_nonneg (hDiffsMean_nonneg g) (vDiffsMean_nonneg g)) (by norm_num))
    · exact min_le_left _ _

/-- In the non-raising regime, `_detect_blocking_artifacts` succeeds. -/
theorem detect_some_of_blockingOk (g : GImg K) (hok : blockingOk g.h g.w) :
    ∃ a, detect_blocking_artifacts g = some a := by
  by_cases hsmall : g.h < 16 ∨ g.w < 16
  · exact ⟨0, detect_blocking_artifacts_small g hsmall⟩
  · have hbc : bcastOk (sliceLen g.h 8) (sliceLen g.h 7) ∧
        bcastOk (sliceLen g.w 8) (sliceLen g.w 7) := by
      rcases hok with h | h | h
      · exact absurd (Or.inl h) hsmall
      · exact absurd (Or.inr h) hsmall
      · exact h
    exact ⟨_, by rw [detect_blocking_artifacts, if_neg hsmall, if_pos hbc]⟩

/-- C1 counterexample: `extract_features` on a valid 24×24 image raises
(the blocking-artifact broadcast error), so it does not return a
feature vector at all — let alone one with all keys finite. -/
theorem extract_features_counterexample :
    extract_features idResample zeroRGB24 = none := by
  have h1 : resizedImage idResample zeroRGB24 = zeroRGB24 := by
    rw [resizedImage, if_neg]
    show ¬(512 < max zeroRGB24.w zeroRGB24.h)
    decide
  have hd : detect_blocking_artifacts (rgb2gray zeroRGB24) = none := by
    rw [detect_blocking_artifacts, if_neg (by decide), if_neg (by decide)]
  rw [extract_features, h1]
  simp only [extract_features_arr]
  rw [hd]

/-- C1 (amended): for every image whose post-resize dimensions do not
trigger the blocking-artifact broadcast error (each dimension below 16,
equal to 16, or not a multiple of 8) and whose post-resize color
channels each have nonzero variance, `extract_features` returns a
feature vector carrying exactly the 32 documented keys with every value
finite.  (When a dimension ≥ 24 is a multiple of 8 the call instead
raises — see `extract_features_counterexample` — and when a channel is
constant the three correlation features are NaN.) -/
theorem extract_features_amended (resample : CImg ℝ → ℕ → ℕ → CImg ℝ) (img : CImg ℝ)
    (hok : blockingOk (resizedImage resample img).h (resizedImage resample img).w)
    (hr : devSum (channel_r (resizedImage resample img)) (channel_r (resizedImage resample img)) ≠ 0)
    (hg : devSum (channel_g (resizedImage resample img)) (channel_g (resizedImage resample img)) ≠ 0)
    (hb : devSum (channel_b (resizedImage resample img)) (channel_b (resizedImage resample img)) ≠ 0) :
    ∃ fv, extract_features resample img = some fv ∧
      fv.map Prod.fst = documentedKeys ∧ (fv.all fun p => p.2.isSome) = true := by
  obtain ⟨a, ha⟩ := detect_some_of_blockingOk (rgb2gray (resizedImage resample img)) hok
  rw [extract_features]
  simp only [extract_features_arr]
  rw [ha]
  exact ⟨_, rfl, rfl, by simp [corr_abs, hr, hg, hb]⟩

/-- Witness for `extract_features_amended` on a concrete 1×2 image with
non-constant channels. -/
theorem extract_features_amended_witness :
    blockingOk (resizedImage idResample tinyImg).h (resizedImage idResample tinyImg).w ∧
    ∃ fv, extract_features idResample tinyImg = some fv ∧
      fv.map Prod.fst = documentedKeys ∧ (fv.all fun p => p.2.isSome) = true := by
  have hres : resizedImage idResample tinyImg = tinyImg := by
    rw [resizedImage, if_neg]
    show ¬(512 < max tinyImg.w tinyImg.h)
    decide
  have hdev : devSum (channel_r tinyImg) (channel_r tinyImg) = 2 := by
    have e : devSum (channel_r tinyImg) (channel_r tinyImg)
        = ∑ p ∈ Finset.range 1 ×ˢ Finset.range 2,
            (tinyImg.r p.1 p.2 - gmean (channel_r tinyImg)) *
            (tinyImg.r p.1 p.2 - gmean (channel_r tinyImg)) := rfl
    have em : gmean (channel_r tinyImg)
        = (∑ p ∈ Finset.range 1 ×ˢ Finset.range 2, tinyImg.r p.1 p.2) / ((1 * 2 : ℕ) : ℝ) := rfl
    rw [e, em, Finset.sum_product, Finset.sum_product]
    norm_num [Finset.sum_range_succ, tinyImg]
  have hdev' : devSum (channel_r tinyImg) (channel_r tinyImg) ≠ 0 := by
    rw [hdev]; norm_num
  refine ⟨by rw [hres]; decide, extract_features_amended idResample tinyImg ?_ ?_ ?_ ?_⟩
  · rw [hres]; decide
  · rw [hres]; exact hdev'
  · rw [hres]; exact hdev'
  · rw [hres]; exact hdev'
end ImageProcessor

namespace ImageProcessor

/-- C7: every `compression_consistency` and `artifact_score` value
produced by `extract_features` lies in the closed interval [0,1]. -/
theorem compression_features_mem_unit (resample : CImg ℝ → ℕ → ℕ → CImg ℝ) (img : CImg ℝ)
    (fv : FeatureVec) (c a : ℝ)
    (hfv : extract_features resample img = some fv)
    (hc : fv.lookup "compression_consistency" = some (some c))
    (ha : fv.lookup "artifact_score" = some (some a)) :
    (0 ≤ c ∧ c ≤ 1) ∧ 0 ≤ a ∧ a ≤ 1 := by
  rw [extract_features] at hfv
  simp only [extract_features_arr] at hfv
  rcases hd : detect_blocking_artifacts (rgb2gray (resizedImage resample img)) with _ | art
  · rw [hd] at hfv
    exact absurd hfv (by simp)
  · rw [hd] at hfv
    obtain rfl := Option.some.inj hfv
    simp only [List.lookup] at hc ha
    obtain rfl := Option.some.inj (Option.some.inj hc)
    obtain rfl := Option.some.inj (Option.some.inj ha)
    refine ⟨⟨?_, min_le_left _ _⟩, detect_blocking_artifacts_mem_unit _ _ hd⟩
    have hv := gvar_nonneg (local_var (rgb2gray (resizedImage resample img)))
    exact le_min (by norm_num) (by positivity)

/-- Witness for `compression_features_mem_unit` on a concrete 1×1 image. -/
theorem compression_features_mem_unit_witness :
    ∃ fv c a, extract_features idResample oneImg = some fv ∧
      fv.lookup "compression_consistency" = some (some c) ∧
      fv.lookup "artifact_score" = some (some a) ∧
      ((0 ≤ c ∧ c ≤ 1) ∧ 0 ≤ a ∧ a ≤ 1) :=
  ⟨_, _, _, rfl, rfl, rfl,
    compression_features_mem_unit idResample oneImg _ _ _ rfl rfl rfl⟩

end ImageProcessor

namespace ImageProcessor

/-! ### Constant-image lemmas and the uniform solid-color scenario (C5) -/

theorem sobel0_const (h w : ℕ) (c : ℝ) (i j : ℕ) :
    (sobel0 ⟨h, w, fun _ _ => c⟩).px i j = 0 := by
  have e : (sobel0 (⟨h, w, fun _ _ => c⟩ : GImg ℝ)).px i j
      = (c + 2 * c + c) - (c + 2 * c + c) := rfl
  rw [e]
  ring

theorem sobel1_const (h w : ℕ) (c : ℝ) (i j : ℕ) :
    (sobel1 ⟨h, w, fun _ _ => c⟩).px i j = 0 := by
  have e : (sobel1 (⟨h, w, fun _ _ => c⟩ : GImg ℝ)).px i j
      = (c + 2 * c + c) - (c + 2 * c + c) := rfl
  rw [e]
  ring

theorem gradient_magnitude_const (h w : ℕ) (c : ℝ) (i j : ℕ) :
    (gradient_magnitude ⟨h, w, fun _ _ => c⟩).px i j = 0 := by
  have e : (gradient_magnitude (⟨h, w, fun _ _ => c⟩ : GImg ℝ)).px i j
      = Real.sqrt ((sobel0 (⟨h, w, fun _ _ => c⟩ : GImg ℝ)).px i j ^ 2 +
          (sobel1 (⟨h, w, fun _ _ => c⟩ : GImg ℝ)).px i j ^ 2) := rfl
  rw [e, sobel0_const, sobel1_const]
  norm_num

theorem edge_density_const (h w : ℕ) (c : ℝ) :
    edge_density ⟨h, w, fun _ _ => c⟩ = 0 := by
  unfold edge_density
  rw [Finset.filter_false_of_mem fun p _ => by rw [gradient_magnitude_const]; norm_num]
  simp

theorem gaussNorm_pos : 0 < gaussNorm :=
  Finset.sum_pos (fun k _ => Real.exp_pos _) ⟨0, Finset.mem_range.mpr (by norm_num)⟩

theorem gauss_sum_const (c : ℝ) (f : ℕ → ℝ) (hf : ∀ k, f k = c) :
    (∑ k ∈ Finset.range 9, gaussWeight ((k : ℤ) - 4) * f k) / gaussNorm = c := by
  have h1 : ∀ k ∈ Finset.range 9,
      gaussWeight ((k : ℤ) - 4) * f k = gaussWeight ((k : ℤ) - 4) * c :=
    fun k _ => by rw [hf]
  rw [Finset.sum_congr rfl h1, ← Finset.sum_mul]
  exact mul_div_cancel_left₀ c gaussNorm_pos.ne'

theorem gaussian_filter_const (h w : ℕ) (c : ℝ) (i j : ℕ) :
    (gaussian_filter ⟨h, w, fun _ _ => c⟩).px i j = c := by
  have e : (gaussian_filter (⟨h, w, fun _ _ => c⟩ : GImg ℝ)).px i j
      = (∑ k ∈ Finset.range 9, gaussWeight ((k : ℤ) - 4) *
          ((∑ m ∈ Finset.range 9, gaussWeight ((m : ℤ) - 4) * c) / gaussNorm)) /
        gaussNorm := rfl
  rw [e]
  exact gauss_sum_const c _ fun k => gauss_sum_const c _ fun m => rfl

end ImageProcessor

namespace ImageProcessor

theorem redImg_resized : resizedImage idResample redImg = redImg := by
  rw [resizedImage, if_neg]
  show ¬(512 < max redImg.w redImg.h)
  decide

theorem redImg_gray :
    rgb2gray redImg
      = ⟨100, 100, fun _ _ => (0.2989 * 255 + 0.5870 * 0 + 0.1140 * 0 : ℝ)⟩ := rfl

theorem detect_blocking_artifacts_const (h w : ℕ) (c : ℝ)
    (hh : 16 ≤ h) (hw : 16 ≤ w)
    (hbc : bcastOk (sliceLen h 8) (sliceLen h 7) ∧ bcastOk (sliceLen w 8) (sliceLen w 7)) :
    detect_blocking_artifacts ⟨h, w, fun _ _ => c⟩ = some 0 := by
  rw [detect_blocking_artifacts, if_neg (by show ¬(h < 16 ∨ w < 16); omega), if_pos hbc]
  have h1 : hDiffsMean (⟨h, w, fun _ _ => c⟩ : GImg ℝ) = 0 := by
    unfold hDiffsMean
    simp
  have h2 : vDiffsMean (⟨h, w, fun _ _ => c⟩ : GImg ℝ) = 0 := by
    unfold vDiffsMean
    simp
  rw [h1, h2]
  norm_num

theorem redImg_cmean : cmean redImg = 85 := by
  have e : cmean redImg = (∑ p ∈ cgrid redImg, cvals redImg p) / ((100 * 100 * 3 : ℕ) : ℝ) := rfl
  rw [e, show cgrid redImg
      = (Finset.range 100 ×ˢ Finset.range 100) ×ˢ (Finset.univ : Finset (Fin 3)) from rfl,
    Finset.sum_product]
  have e3 : ∀ a ∈ Finset.range 100 ×ˢ Finset.range 100,
      (∑ ch ∈ (Finset.univ : Finset (Fin 3)), cvals redImg (a, ch)) = (255 : ℝ) := by
    intro a _
    rw [Fin.sum_univ_three,
      show cvals redImg (a, 0) = 255 from rfl,
      show cvals redImg (a, 1) = 0 from rfl,
      show cvals redImg (a, 2) = 0 from rfl]
    norm_num
  rw [Finset.sum_congr rfl e3, Finset.sum_const, Finset.card_product]
  norm_num

theorem redImg_cvar : cvar redImg = 14450 := by
  have e : cvar redImg
      = (∑ p ∈ cgrid redImg, (cvals redImg p - cmean redImg) ^ 2) /
        ((100 * 100 * 3 : ℕ) : ℝ) := rfl
  rw [e, show cgrid redImg
      = (Finset.range 100 ×ˢ Finset.range 100) ×ˢ (Finset.univ : Finset (Fin 3)) from rfl,
    Finset.sum_product]
  have e3 : ∀ a ∈ Finset.range 100 ×ˢ Finset.range 100,
      (∑ ch ∈ (Finset.univ : Finset (Fin 3)), (cvals redImg (a, ch) - cmean redImg) ^ 2)
        = (43350 : ℝ) := by
    intro a _
    rw [Fin.sum_univ_three, redImg_cmean,
      show cvals redImg (a, 0) = 255 from rfl,
      show cvals redImg (a, 1) = 0 from rfl,
      show cvals redImg (a, 2) = 0 from rfl]
    norm_num
  rw [Finset.sum_congr rfl e3, Finset.sum_const, Finset.card_product]
  norm_num

end ImageProcessor

namespace ImageProcessor

theorem noise_const (h w : ℕ) (c : ℝ) :
    (⟨h, w, fun i j => c - (gaussian_filter ⟨h, w, fun _ _ => c⟩).px i j⟩ : GImg ℝ)
      = ⟨h, w, fun _ _ => 0⟩ := by
  refine congrArg (GImg.mk h w) ?_
  funext i j
  rw [gaussian_filter_const]
  exact sub_self c

theorem redImg_detect : detect_blocking_artifacts (rgb2gray redImg) = some 0 := by
  rw [redImg_gray]
  exact detect_blocking_artifacts_const 100 100 _ (by norm_num) (by norm_num) (by decide)

/-- C5 counterexample: on the uniform 100×100 solid-red image the
`color_variance` feature is `np.var` over the whole h×w×3 array divided
by 255², which is 2/9 ≈ 0.222 — not approximately 0, under any
tolerance up to 1/100 — because the variance is taken across channels,
not per channel. -/
theorem uniform_image_counterexample :
    (∃ fv, extract_features idResample redImg = some fv ∧
      fv.lookup "color_variance" = some (some (2 / 9))) ∧ ¬((2 / 9 : ℝ) ≤ 1 / 100) := by
  constructor
  · rw [extract_features, redImg_resized]
    simp only [extract_features_arr]
    rw [redImg_detect]
    refine ⟨_, rfl, ?_⟩
    show some (some (cvar redImg / 255 ^ 2)) = some (some (2 / 9))
    rw [redImg_cvar]
    norm_num
  · norm_num

/-- C5 (amended): on the uniform 100×100 solid-red image,
`extract_features` yields `edge_density` exactly 0, `noise_std` exactly
0, and `color_variance` exactly 2/9 (the global variance across the
three channels; it is the per-channel variances that vanish, not this
feature). -/
theorem uniform_image_features :
    ∃ fv, extract_features idResample redImg = some fv ∧
      fv.lookup "edge_density" = some (some 0) ∧
      fv.lookup "noise_std" = some (some 0) ∧
      fv.lookup "color_variance" = some (some (2 / 9)) := by
  rw [extract_features, redImg_resized]
  simp only [extract_features_arr]
  rw [redImg_detect]
  refine ⟨_, rfl, ?_, ?_, ?_⟩
  · show some (some (edge_density (rgb2gray redImg))) = some (some 0)
    rw [redImg_gray, edge_density_const]
  · show some (some (Real.sqrt (gvar (⟨100, 100, fun i j =>
        (0.2989 * 255 + 0.5870 * 0 + 0.1140 * 0 : ℝ) -
        (gaussian_filter ⟨100, 100,
          fun _ _ => (0.2989 * 255 + 0.5870 * 0 + 0.1140 * 0 : ℝ)⟩).px i j⟩ : GImg ℝ)) / 255))
      = some (some 0)
    rw [noise_const, gvar_const, Real.sqrt_zero, zero_div]
  · show some (some (cvar redImg / 255 ^ 2)) = some (some (2 / 9))
    rw [redImg_cvar]
    norm_num

end ImageProcessor
